import Mathlib

/-!
Verification development for the mntdf program (src/main.rs), a df-style
space reporter.  The embedding below translates the program's core
functions — `find_mount`, `mount_entry_to_format_entry`, the table
formatter and the orchestration in `main` — into executable Lean
definitions.  Machine integers (`u64`/`usize`) are modelled as `Nat`
with explicit wrap-around modulo `2 ^ 64`, matching the arithmetic the
compiled (release-profile, overflow-wrapping) program performs.  The
external collaborators (the statvfs syscall, the /proc mount table and
fs::metadata) are modelled as an ambient `World` record supplying their
results.
-/

namespace Mntdf

/-- Modulus of 64-bit unsigned machine integers (Rust `u64` / `usize`). -/
def U64 : Nat := 2 ^ 64

/-- Rust `usize::MAX` on a 64-bit target, the sentinel used by `find_mount`. -/
def USIZE_MAX : Nat := 2 ^ 64 - 1

/-- Wrapping `u64` addition. -/
def add64 (a b : Nat) : Nat := (a + b) % U64

/-- Wrapping `u64` multiplication. -/
def mul64 (a b : Nat) : Nat := a * b % U64

/-- Wrapping `u64` subtraction (two's-complement wrap-around, the behaviour
of `a - b` in an overflow-wrapping Rust build). -/
def sub64 (a b : Nat) : Nat := (a % U64 + (U64 - b % U64)) % U64

/-- Byte length of the UTF-8 form of a string: Rust `str::len()`, used by
`find_mount` on `entry.file.as_path().to_string_lossy()`. -/
def strLen (s : String) : Nat := s.utf8ByteSize

/-- Split a character list at every slash character (auxiliary for
`pathComponents`). -/
def splitComps : List Char → List (List Char)
  | [] => [[]]
  | c :: cs =>
    if c = '/' then [] :: splitComps cs
    else
      match splitComps cs with
      | [] => [[c]]
      | r :: rs => (c :: r) :: rs

/-- Rust `str::starts_with("/")`: the first byte is a slash. -/
def startsWithSlash (s : String) : Bool :=
  match s.data with
  | [] => false
  | c :: _ => c = '/'

/-- The component list of a path in the sense of Rust `Path::components`:
an initial root marker for absolute paths (or a current-directory marker
for `.`-led relative ones) followed by the non-empty, non-`.` segments.
Repeated and trailing slashes are ignored, so component-wise comparison
respects directory boundaries. -/
def pathComponents (s : String) : List String :=
  let parts := ((splitComps s.data).map String.mk).filter fun c =>
    if c = "" then false else if c = "." then false else true
  match s.data with
  | '/' :: _ => "/" :: parts
  | ['.'] => "." :: parts
  | '.' :: '/' :: _ => "." :: parts
  | _ => parts

/-- Boolean list-prefix test (auxiliary for `pathPrefixMatch`). -/
def listIsPre : List String → List String → Bool
  | [], _ => true
  | _ :: _, [] => false
  | a :: as, b :: bs => if a = b then listIsPre as bs else false

/-- One line of the mount table; the Rust `mnt::MountEntry` restricted to
the two fields the program reads: the source `spec` and the mount point
`file`. -/
structure MountEntry where
  spec : String
  file : String
deriving DecidableEq

/-- The exact-source shortcut test of `find_mount` (src/main.rs line 120):
`entry.spec.starts_with("/") && entry.spec == spec`. -/
def exactSpecMatch (path : String) (entry : MountEntry) : Bool :=
  startsWithSlash entry.spec && decide (entry.spec = path)

/-- The prefix test of `find_mount` (src/main.rs line 123):
`path.as_ref().starts_with(&entry.file)`, a path-component-wise prefix. -/
def pathPrefixMatch (path : String) (entry : MountEntry) : Bool :=
  listIsPre (pathComponents entry.file) (pathComponents path)

/-- One iteration of the `find_mount` loop (src/main.rs lines 118-129),
acting on the accumulator `(mount_entry, file_len)`. -/
def findStep (path : String) (acc : Option MountEntry × Nat) (entry : MountEntry) :
    Option MountEntry × Nat :=
  if exactSpecMatch path entry then (some entry, USIZE_MAX)
  else if pathPrefixMatch path entry then
    (if strLen entry.file > acc.2 then (some entry, strLen entry.file) else acc)
  else acc

/-- `find_mount` (src/main.rs lines 111-135) applied to an already-read
mount table: scan the entries in order keeping the best match. -/
def find_mount (path : String) (entries : List MountEntry) : Option MountEntry :=
  (entries.foldl (findStep path) (none, 0)).1

/-- The program options (src/main.rs lines 33-36). -/
structure Options where
  kilo_flag : Bool
deriving DecidableEq

/-- One fully formatted output row (src/main.rs lines 38-46). -/
structure FormatEntry where
  file_system : String
  total : String
  used : String
  available : String
  capacity : String
  mount_point : String
deriving DecidableEq

/-- Per-column maximum widths (src/main.rs lines 48-56). -/
structure FormatMaxLengths where
  max_file_system_len : Nat
  max_total_len : Nat
  max_used_len : Nat
  max_available_len : Nat
  max_capacity_len : Nat
  max_mount_point_len : Nat
deriving DecidableEq

/-- The statvfs result record (src/main.rs lines 58-72); all fields are
`u64` counters. -/
structure StatVFs where
  bsize : Nat
  frsize : Nat
  blocks : Nat
  bfree : Nat
  bavail : Nat
  files : Nat
  ffree : Nat
  favail : Nat
  fsid : Nat
  flag : Nat
  namemax : Nat
deriving DecidableEq

/-- `let unit_size = if opts.kilo_flag { 1024 } else { 512 }`
(src/main.rs line 154). -/
def unit_size (opts : Options) : Nat := if opts.kilo_flag then 1024 else 512

/-- `header_format_entry` (src/main.rs lines 137-148). -/
def header_format_entry (opts : Options) : FormatEntry :=
  { file_system := "Filesystem"
    total := if opts.kilo_flag then "1024-blocks" else "512-blocks"
    used := "Used"
    available := "Available"
    capacity := "Capacity"
    mount_point := "Mounted on" }

/-- `mount_entry_to_format_entry` (src/main.rs lines 150-187).  The
statvfs syscall result for `mount_entry.file` is passed in explicitly.
Outer `none` models the `None` returned on a failed statvfs query; inner
`none` models the `Some(None)` skip of a zero-total filesystem in
enumeration mode. -/
def mount_entry_to_format_entry (mount_entry : MountEntry)
    (statvfs_res : Except String StatVFs) (opts : Options) (is_vfs : Bool) :
    Option (Option FormatEntry) :=
  match statvfs_res with
  | .ok statvfs =>
    let total_blocks := statvfs.blocks
    if total_blocks != 0 || is_vfs then
      let used_blocks := sub64 statvfs.blocks statvfs.bfree
      let available_blocks := statvfs.bavail
      let total_blocks2 := add64 used_blocks available_blocks
      let capacity :=
        if total_blocks2 != 0 then
          toString (sub64 (add64 (mul64 used_blocks 100) total_blocks2) 1 / total_blocks2)
            ++ "%"
        else "0%"
      some (some
        { file_system := mount_entry.spec
          total := toString
            (sub64 (add64 (mul64 total_blocks statvfs.frsize) (unit_size opts)) 1
              / unit_size opts)
          used := toString
            (sub64 (add64 (mul64 used_blocks statvfs.frsize) (unit_size opts)) 1
              / unit_size opts)
          available := toString (mul64 available_blocks statvfs.frsize / unit_size opts)
          capacity := capacity
          mount_point := mount_entry.file })
    else some none
  | .error _ => none

/-- The `used_blocks = statvfs.blocks - statvfs.bfree` value computed at
src/main.rs line 157 (wrapping `u64` subtraction). -/
def used_blocks (s : StatVFs) : Nat := sub64 s.blocks s.bfree

/-- The `total_blocks2 = used_blocks + available_blocks` denominator of
the capacity percentage (src/main.rs line 159). -/
def total_blocks2 (s : StatVFs) : Nat := add64 (used_blocks s) s.bavail

/-- Left-aligned padding to a column width, Rust `{:<width$}`. -/
def lpad (s : String) (w : Nat) : String :=
  s ++ String.mk (List.replicate (w - s.length) ' ')

/-- Right-aligned padding to a column width, Rust `{:>width$}`. -/
def rpad (s : String) (w : Nat) : String :=
  String.mk (List.replicate (w - s.length) ' ') ++ s

/-- `calculate_format_max_lens` (src/main.rs lines 189-208); the Rust
`chars().fold(0, |x, _| x + 1)` is the character count `String.length`. -/
def calculate_format_max_lens (format_entries : List FormatEntry) : FormatMaxLengths :=
  format_entries.foldl
    (fun ml fe =>
      { max_file_system_len := max ml.max_file_system_len fe.file_system.length
        max_total_len := max ml.max_total_len fe.total.length
        max_used_len := max ml.max_used_len fe.used.length
        max_available_len := max ml.max_available_len fe.available.length
        max_capacity_len := max ml.max_capacity_len fe.capacity.length
        max_mount_point_len := max ml.max_mount_point_len fe.mount_point.length })
    ⟨0, 0, 0, 0, 0, 0⟩

/-- One printed line of `print_format_entries` (src/main.rs lines 212-225). -/
def format_line (fe : FormatEntry) (ml : FormatMaxLengths) : String :=
  lpad fe.file_system ml.max_file_system_len ++ " " ++
  rpad fe.total ml.max_total_len ++ " " ++
  rpad fe.used ml.max_used_len ++ " " ++
  rpad fe.available ml.max_available_len ++ " " ++
  rpad fe.capacity ml.max_capacity_len ++ " " ++
  fe.mount_point ++ "\n"

/-- `print_format_entries` (src/main.rs lines 210-226), modelled as the
text written to standard output. -/
def print_format_entries (format_entries : List FormatEntry) (ml : FormatMaxLengths) :
    String :=
  format_entries.foldl (fun out fe => out ++ format_line fe ml) ""

/-- The external collaborators of the program: `fs::metadata`, the
/proc mount table read (`MountIter::new_from_proc`, used by both
`get_mounts` and `find_mount`) and the `statvfs` syscall. -/
structure World where
  meta : String → Except String Unit
  mounts : Except String (List MountEntry)
  statvfs : String → Except String StatVFs

/-- `get_mounts` (src/main.rs lines 98-109): the whole table or a parse
error (all-or-nothing). -/
def get_mounts (w : World) : Except String (List MountEntry) := w.mounts

/-- `find_mount` as called from `main`: it re-reads the mount table and
propagates a parse error (src/main.rs lines 111-135). -/
def find_mount_res (w : World) (path : String) : Except String (Option MountEntry) :=
  match w.mounts with
  | .ok entries => .ok (find_mount path entries)
  | .error e => .error e

/-- The per-path outcome in targeted mode (src/main.rs lines 255-281):
the produced row, if any, and this item's contribution to the exit
status (`0` success or skip, `1` failure). -/
def process_path (w : World) (opts : Options) (path : String) :
    Option FormatEntry × Nat :=
  match w.meta path with
  | .ok _ =>
    match find_mount_res w path with
    | .ok (some mount_entry) =>
      match mount_entry_to_format_entry mount_entry (w.statvfs mount_entry.file) opts true with
      | some (some fe) => (some fe, 0)
      | some none => (none, 0)
      | none => (none, 1)
    | .ok none => (none, 1)
    | .error _ => (none, 1)
  | .error _ => (none, 1)

/-- The per-entry outcome in enumeration mode (src/main.rs lines 285-291). -/
def process_mount (w : World) (opts : Options) (mount_entry : MountEntry) :
    Option FormatEntry × Nat :=
  match mount_entry_to_format_entry mount_entry (w.statvfs mount_entry.file) opts false with
  | some (some fe) => (some fe, 0)
  | some none => (none, 0)
  | none => (none, 1)

/-- The body of the targeted-mode loop of `main` (src/main.rs lines
255-281), acting on the accumulated `(format_entries, status)`. -/
def main_step_path (w : World) (opts : Options) (acc : List FormatEntry × Nat)
    (path : String) : List FormatEntry × Nat :=
  match w.meta path with
  | .ok _ =>
    match find_mount_res w path with
    | .ok (some mount_entry) =>
      match mount_entry_to_format_entry mount_entry (w.statvfs mount_entry.file) opts true with
      | some (some format_entry) => (acc.1 ++ [format_entry], acc.2)
      | some none => acc
      | none => (acc.1, 1)
    | .ok none => (acc.1, 1)
    | .error _ => (acc.1, 1)
  | .error _ => (acc.1, 1)

/-- The body of the enumeration-mode loop of `main` (src/main.rs lines
285-291). -/
def main_step_mount (w : World) (opts : Options) (acc : List FormatEntry × Nat)
    (mount_entry : MountEntry) : List FormatEntry × Nat :=
  match mount_entry_to_format_entry mount_entry (w.statvfs mount_entry.file) opts false with
  | some (some format_entry) => (acc.1 ++ [format_entry], acc.2)
  | some none => acc
  | none => (acc.1, 1)

/-- The row-collection and status-accumulation part of `main`
(src/main.rs lines 250-298): the header row is pushed first, then either
the targeted loop over the given paths or the enumeration loop over the
mount table runs, returning the collected rows and the exit status. -/
def runMain (w : World) (opts : Options) (paths : List String) :
    List FormatEntry × Nat :=
  let init : List FormatEntry × Nat := ([header_format_entry opts], 0)
  if !paths.isEmpty then
    paths.foldl (main_step_path w opts) init
  else
    match get_mounts w with
    | .ok mount_entries => mount_entries.foldl (main_step_mount w opts) init
    | .error _ => (init.1, 1)

/-- The text `main` writes to standard output (src/main.rs lines
299-302): the formatted table, printed only when there is at least one
row beyond the header. -/
def mainOutput (w : World) (opts : Options) (paths : List String) : String :=
  let r := runMain w opts paths
  if r.1.length > 1 then
    print_format_entries r.1 (calculate_format_max_lens r.1)
  else ""

/-! ## Lemmas about the `find_mount` scan -/

/-- An absolute path has a nonzero text length. -/
theorem strLen_pos_of_slash (s : String) (h : startsWithSlash s = true) :
    0 < strLen s := by
  cases s with
  | mk data =>
    cases data with
    | nil => simp [startsWithSlash] at h
    | cons c cs =>
      have hc := Char.utf8Size_pos c
      have he : strLen ⟨c :: cs⟩ = String.utf8ByteSize.go cs + c.utf8Size := rfl
      omega

/-- If no entry of `l` triggers the exact-source shortcut and every
prefix-matching entry of `l` is no longer than the current best length,
the scan leaves the accumulator unchanged. -/
theorem foldl_findStep_const (path : String) :
    ∀ (l : List MountEntry) (acc : Option MountEntry × Nat),
      (∀ e ∈ l, exactSpecMatch path e = false) →
      (∀ e ∈ l, pathPrefixMatch path e = true → strLen e.file ≤ acc.2) →
      l.foldl (findStep path) acc = acc := by
  intro l
  induction l with
  | nil => intro acc _ _; rfl
  | cons a t ih =>
    intro acc hns hle
    have ha : exactSpecMatch path a = false := hns a (List.mem_cons_self a t)
    have hstep : findStep path acc a = acc := by
      unfold findStep
      rw [ha, if_neg Bool.false_ne_true]
      by_cases hp : pathPrefixMatch path a = true
      · rw [if_pos hp]
        have := hle a (List.mem_cons_self a t) hp
        rw [if_neg (Nat.not_lt.mpr this)]
      · rw [if_neg hp]
    rw [List.foldl_cons, hstep]
    exact ih acc (fun e he => hns e (List.mem_cons_of_mem a he))
      (fun e he hp => hle e (List.mem_cons_of_mem a he) hp)

/-- If no entry triggers the exact-source shortcut, `m` prefix-matches,
every prefix-matching entry before `m` is strictly shorter, the current
best is strictly shorter than `m`, and no entry after `m` is longer,
then the scan ends with exactly `m`. -/
theorem foldl_findStep_pick (path : String) :
    ∀ (l₁ : List MountEntry) (m : MountEntry) (l₂ : List MountEntry)
      (acc : Option MountEntry × Nat),
      (∀ e ∈ l₁ ++ m :: l₂, exactSpecMatch path e = false) →
      (∀ e ∈ l₁, pathPrefixMatch path e = true → strLen e.file < strLen m.file) →
      acc.2 < strLen m.file →
      pathPrefixMatch path m = true →
      (∀ e ∈ l₂, pathPrefixMatch path e = true → strLen e.file ≤ strLen m.file) →
      (l₁ ++ m :: l₂).foldl (findStep path) acc = (some m, strLen m.file) := by
  intro l₁
  induction l₁ with
  | nil =>
    intro m l₂ acc hns hlt hacc hm hle
    simp only [List.nil_append, List.foldl_cons]
    have hstep : findStep path acc m = (some m, strLen m.file) := by
      unfold findStep
      rw [hns m (by simp), if_neg Bool.false_ne_true, if_pos hm, if_pos hacc]
    rw [hstep]
    exact foldl_findStep_const path l₂ (some m, strLen m.file)
      (fun e he => hns e (by simp [he])) (fun e he hp => hle e he hp)
  | cons a t ih =>
    intro m l₂ acc hns hlt hacc hm hle
    have ha : exactSpecMatch path a = false := hns a (by simp)
    rw [List.cons_append, List.foldl_cons]
    by_cases hp : pathPrefixMatch path a = true
    · have hlta := hlt a (by simp) hp
      by_cases hgt : acc.2 < strLen a.file
      · have hstep : findStep path acc a = (some a, strLen a.file) := by
          unfold findStep
          rw [ha, if_neg Bool.false_ne_true, if_pos hp, if_pos hgt]
        rw [hstep]
        exact ih m l₂ (some a, strLen a.file) (fun e he => hns e (by simp [he]))
          (fun e he hq => hlt e (by simp [he]) hq) hlta hm hle
      · have hstep : findStep path acc a = acc := by
          unfold findStep
          rw [ha, if_neg Bool.false_ne_true, if_pos hp, if_neg hgt]
        rw [hstep]
        exact ih m l₂ acc (fun e he => hns e (by simp [he]))
          (fun e he hq => hlt e (by simp [he]) hq) hacc hm hle
    · have hstep : findStep path acc a = acc := by
        unfold findStep
        rw [ha, if_neg Bool.false_ne_true, if_neg hp]
      rw [hstep]
      exact ih m l₂ acc (fun e he => hns e (by simp [he]))
        (fun e he hq => hlt e (by simp [he]) hq) hacc hm hle

/-- Any list with a prefix-matching entry decomposes around the first
entry attaining the maximal matching length. -/
theorem exists_first_max (path : String) :
    ∀ l : List MountEntry, (∃ e ∈ l, pathPrefixMatch path e = true) →
      ∃ l₁ m l₂, l = l₁ ++ m :: l₂ ∧ pathPrefixMatch path m = true ∧
        (∀ e ∈ l, pathPrefixMatch path e = true → strLen e.file ≤ strLen m.file) ∧
        (∀ e ∈ l₁, pathPrefixMatch path e = true → strLen e.file < strLen m.file) := by
  intro l
  induction l with
  | nil => rintro ⟨e, he, _⟩; exact absurd he (List.not_mem_nil e)
  | cons a t ih =>
    intro hex
    by_cases hth : ∃ e ∈ t, pathPrefixMatch path e = true
    · obtain ⟨t₁, m, t₂, hdec, hm, hmax, hfirst⟩ := ih hth
      by_cases hca : pathPrefixMatch path a = true ∧ strLen m.file ≤ strLen a.file
      · refine ⟨[], a, t, rfl, hca.1, ?_, fun e he => absurd he (List.not_mem_nil e)⟩
        intro e he hp
        rcases List.mem_cons.mp he with rfl | he'
        · exact Nat.le_refl _
        · exact Nat.le_trans (hmax e he' hp) hca.2
      · refine ⟨a :: t₁, m, t₂, by rw [hdec]; rfl, hm, ?_, ?_⟩
        · intro e he hp
          rcases List.mem_cons.mp he with rfl | he'
          · have hnot : ¬ strLen m.file ≤ strLen e.file := fun hle => hca ⟨hp, hle⟩
            omega
          · exact hmax e he' hp
        · intro e he hp
          rcases List.mem_cons.mp he with rfl | he'
          · have hnot : ¬ strLen m.file ≤ strLen e.file := fun hle => hca ⟨hp, hle⟩
            omega
          · exact hfirst e he' hp
    · have hpa : pathPrefixMatch path a = true := by
        obtain ⟨e, he, hp⟩ := hex
        rcases List.mem_cons.mp he with rfl | he'
        · exact hp
        · exact absurd ⟨e, he', hp⟩ hth
      refine ⟨[], a, t, rfl, hpa, ?_, fun e he => absurd he (List.not_mem_nil e)⟩
      intro e he hp
      rcases List.mem_cons.mp he with rfl | he'
      · exact Nat.le_refl _
      · exact absurd ⟨e, he', hp⟩ hth

/-- With no exact-source shortcut firing, `find_mount` returns the first
entry attaining the maximal prefix-matching length. -/
theorem find_mount_eq_first_max (path : String) (entries l₁ : List MountEntry)
    (m : MountEntry) (l₂ : List MountEntry)
    (hdec : entries = l₁ ++ m :: l₂)
    (hns : ∀ e ∈ entries, exactSpecMatch path e = false)
    (hpos : 0 < strLen m.file)
    (hm : pathPrefixMatch path m = true)
    (hmax : ∀ e ∈ entries, pathPrefixMatch path e = true →
      strLen e.file ≤ strLen m.file)
    (hfirst : ∀ e ∈ l₁, pathPrefixMatch path e = true →
      strLen e.file < strLen m.file) :
    find_mount path entries = some m := by
  subst hdec
  unfold find_mount
  rw [foldl_findStep_pick path l₁ m l₂ (none, 0) hns hfirst hpos hm
    (fun e he hp =>
      hmax e (List.mem_append_right _ (List.mem_cons_of_mem m he)) hp)]

/-! ## Claims C1-C3: the mount resolver -/

/-- Claim C1: for every mount table (entries with absolute mount points,
the data-model invariant of the spec) and every target path matched by
no exact-source shortcut, `find_mount` returns `none` exactly when no
entry's mount point is a path-component-wise prefix of the target, and
any returned entry is a prefix-matching entry of maximal text length;
with entries `{/: A, /home: B, /home/user: C}` and target
`/home/user/docs` it returns `C`. -/
theorem find_mount_longest_match :
    (∀ (path : String) (entries : List MountEntry),
      (∀ e ∈ entries, exactSpecMatch path e = false) →
      (∀ e ∈ entries, startsWithSlash e.file = true) →
      ((find_mount path entries = none ↔
          ∀ e ∈ entries, pathPrefixMatch path e = false) ∧
        (∀ m, find_mount path entries = some m →
          m ∈ entries ∧ pathPrefixMatch path m = true ∧
            ∀ e ∈ entries, pathPrefixMatch path e = true →
              strLen e.file ≤ strLen m.file))) ∧
    find_mount "/home/user/docs"
        [⟨"fsA", "/"⟩, ⟨"fsB", "/home"⟩, ⟨"fsC", "/home/user"⟩] =
      some ⟨"fsC", "/home/user"⟩ := by
  constructor
  · intro path entries hns habs
    have hnone_of_all : (∀ e ∈ entries, pathPrefixMatch path e = false) →
        find_mount path entries = none := by
      intro hall
      unfold find_mount
      rw [foldl_findStep_const path entries (none, 0) hns
        (fun e he hp => by rw [hall e he] at hp; exact absurd hp Bool.false_ne_true)]
    have hsome_of_ex : ∀ hex : ∃ e ∈ entries, pathPrefixMatch path e = true,
        ∃ m, find_mount path entries = some m ∧ m ∈ entries ∧
          pathPrefixMatch path m = true ∧
          ∀ e ∈ entries, pathPrefixMatch path e = true →
            strLen e.file ≤ strLen m.file := by
      intro hex
      obtain ⟨l₁, m, l₂, hdec, hm, hmax, hfirst⟩ := exists_first_max path entries hex
      have hmem : m ∈ entries := by
        rw [hdec]; exact List.mem_append_right _ (List.mem_cons_self m l₂)
      have hpos : 0 < strLen m.file := strLen_pos_of_slash m.file (habs m hmem)
      exact ⟨m, find_mount_eq_first_max path entries l₁ m l₂ hdec hns hpos hm
        hmax hfirst, hmem, hm, hmax⟩
    constructor
    · constructor
      · intro hnone
        intro e he
        cases hq : pathPrefixMatch path e
        · rfl
        · obtain ⟨m, hfm, _⟩ := hsome_of_ex ⟨e, he, hq⟩
          rw [hnone] at hfm
          exact Option.noConfusion hfm
      · exact hnone_of_all
    · intro m hm
      by_cases hex : ∃ e ∈ entries, pathPrefixMatch path e = true
      · obtain ⟨m₀, hfm, hmem, hpm, hmax⟩ := hsome_of_ex hex
        rw [hm] at hfm
        cases hfm
        exact ⟨hmem, hpm, hmax⟩
      · have hall : ∀ e ∈ entries, pathPrefixMatch path e = false := by
          intro e he
          cases hq : pathPrefixMatch path e
          · rfl
          · exact absurd ⟨e, he, hq⟩ hex
        rw [hnone_of_all hall] at hm
        exact Option.noConfusion hm
  · decide

/-- Witness for C1: applied to a table where nothing matches (returning
`none`) and to the spec's three-entry example (returning `C`). -/
theorem find_mount_longest_match_inst :
    find_mount "/x" [⟨"tmpfs", "/y"⟩] = none ∧
    find_mount "/home/user/docs"
        [⟨"fsA", "/"⟩, ⟨"fsB", "/home"⟩, ⟨"fsC", "/home/user"⟩] =
      some ⟨"fsC", "/home/user"⟩ := by
  constructor
  · exact ((find_mount_longest_match.1 "/x" [⟨"tmpfs", "/y"⟩]
      (by decide) (by decide)).1).mpr (by decide)
  · exact find_mount_longest_match.2

/-- Counterexample for C2 as stated: with two entries both carrying the
absolute spec `/dev/sda1`, resolving `/dev/sda1` selects the first entry
after scanning one entry, yet the *later* duplicate exact match
overrides the selection, so the final answer is the second entry. -/
theorem find_mount_later_exact_overrides :
    find_mount "/dev/sda1" [⟨"/dev/sda1", "/a"⟩] = some ⟨"/dev/sda1", "/a"⟩ ∧
    find_mount "/dev/sda1" [⟨"/dev/sda1", "/a"⟩, ⟨"/dev/sda1", "/b"⟩] =
      some ⟨"/dev/sda1", "/b"⟩ ∧
    exactSpecMatch "/dev/sda1" ⟨"/dev/sda1", "/a"⟩ = true ∧
    exactSpecMatch "/dev/sda1" ⟨"/dev/sda1", "/b"⟩ = true ∧
    (⟨"/dev/sda1", "/b"⟩ : MountEntry) ≠ ⟨"/dev/sda1", "/a"⟩ := by decide

/-- Claim C2 (amended): when some entry's spec begins with `/` and
equals the textual form of the target path, `find_mount` returns the
*last* such entry, regardless of any prefix match anywhere in the table;
once an exact match is selected, no later prefix match can override it
(only a later exact spec match can replace it).  The length bound on the
later entries reflects that Rust string lengths never exceed
`usize::MAX`. -/
theorem find_mount_last_exact_wins (path : String) (l₁ : List MountEntry)
    (m : MountEntry) (l₂ : List MountEntry)
    (hm : exactSpecMatch path m = true)
    (hlast : ∀ e ∈ l₂, exactSpecMatch path e = false)
    (hlen : ∀ e ∈ l₂, strLen e.file ≤ USIZE_MAX) :
    find_mount path (l₁ ++ m :: l₂) = some m := by
  unfold find_mount
  rw [List.foldl_append, List.foldl_cons]
  have hstep : findStep path (List.foldl (findStep path) (none, 0) l₁) m =
      (some m, USIZE_MAX) := by
    unfold findStep
    rw [hm, if_pos rfl]
  rw [hstep]
  rw [foldl_findStep_const path l₂ (some m, USIZE_MAX) hlast
    (fun e he _ => hlen e he)]

/-- Witness for C2 (amended): the exact spec match `/dev/x` wins even
though the later entry mounted at `/dev` is a longer prefix match. -/
theorem find_mount_last_exact_wins_inst :
    find_mount "/dev/x" [⟨"t", "/"⟩, ⟨"/dev/x", "/mnt"⟩, ⟨"u", "/dev"⟩] =
      some ⟨"/dev/x", "/mnt"⟩ :=
  find_mount_last_exact_wins "/dev/x" [⟨"t", "/"⟩] ⟨"/dev/x", "/mnt"⟩
    [⟨"u", "/dev"⟩] (by decide) (by decide) (by decide)

/-- Counterexample for C3 as stated: entries `d1` and `d2` are two
equal-length prefix matches of `/ab/cd` and no exact-source shortcut
fires, yet `find_mount` returns the longer match `d3`, not the first tie
entry `d1`. -/
theorem find_mount_tie_not_first_overall :
    find_mount "/ab/cd" [⟨"d1", "/ab"⟩, ⟨"d2", "/ab"⟩, ⟨"d3", "/ab/cd"⟩] =
      some ⟨"d3", "/ab/cd"⟩ ∧
    pathPrefixMatch "/ab/cd" ⟨"d1", "/ab"⟩ = true ∧
    pathPrefixMatch "/ab/cd" ⟨"d2", "/ab"⟩ = true ∧
    strLen (MountEntry.file ⟨"d1", "/ab"⟩) =
      strLen (MountEntry.file ⟨"d2", "/ab"⟩) ∧
    exactSpecMatch "/ab/cd" ⟨"d1", "/ab"⟩ = false ∧
    exactSpecMatch "/ab/cd" ⟨"d2", "/ab"⟩ = false ∧
    exactSpecMatch "/ab/cd" ⟨"d3", "/ab/cd"⟩ = false ∧
    (⟨"d3", "/ab/cd"⟩ : MountEntry) ≠ ⟨"d1", "/ab"⟩ := by decide

/-- Claim C3 (amended): among the prefix-matching entries of *maximal*
mount-point text length, the first one in table order wins — the strict
greater-than comparison means a later tie never replaces the current
best. -/
theorem find_mount_first_on_max_tie (path : String) (l₁ : List MountEntry)
    (m : MountEntry) (l₂ : List MountEntry)
    (hns : ∀ e ∈ l₁ ++ m :: l₂, exactSpecMatch path e = false)
    (habs : ∀ e ∈ l₁ ++ m :: l₂, startsWithSlash e.file = true)
    (hm : pathPrefixMatch path m = true)
    (hmax : ∀ e ∈ l₁ ++ m :: l₂, pathPrefixMatch path e = true →
      strLen e.file ≤ strLen m.file)
    (hne : ∀ e ∈ l₁, pathPrefixMatch path e = true →
      strLen e.file ≠ strLen m.file) :
    find_mount path (l₁ ++ m :: l₂) = some m :=
  find_mount_eq_first_max path _ l₁ m l₂ rfl hns
    (strLen_pos_of_slash m.file
      (habs m (List.mem_append_right _ (List.mem_cons_self m l₂))))
    hm hmax
    (fun e he hp =>
      Nat.lt_of_le_of_ne (hmax e (List.mem_append_left _ he) hp) (hne e he hp))

/-- Witness for C3 (amended): `y` and `z` tie at the maximal matching
length for `/a/b`; the first of them, `y`, is returned. -/
theorem find_mount_first_on_max_tie_inst :
    find_mount "/a/b" [⟨"x", "/c"⟩, ⟨"y", "/a"⟩, ⟨"z", "/a"⟩] =
      some ⟨"y", "/a"⟩ :=
  find_mount_first_on_max_tie "/a/b" [⟨"x", "/c"⟩] ⟨"y", "/a"⟩ [⟨"z", "/a"⟩]
    (by decide) (by decide) (by decide) (by decide) (by decide)

/-! ## Lemmas about the wrap-around arithmetic and the usage calculator -/

theorem U64_val : U64 = 18446744073709551616 := by norm_num [U64]

theorem mul64_zero (b : Nat) : mul64 0 b = 0 := by simp [mul64]

theorem add64_eq (a b : Nat) (h : a + b < U64) : add64 a b = a + b := by
  unfold add64
  rw [U64_val] at *
  omega

theorem mul64_eq (a b : Nat) (h : a * b < U64) : mul64 a b = a * b := by
  unfold mul64
  rw [U64_val] at *
  omega

theorem sub64_eq (a b : Nat) (ha : a < U64) (hb : b < U64) (hba : b ≤ a) :
    sub64 a b = a - b := by
  unfold sub64
  rw [U64_val] at *
  omega

/-- The ceiling-division pattern of the source, `x + d` wrapped then `- 1`
wrapped, equals the exact `x + d - 1` whenever that value fits in `u64`
(even when `x + d` itself momentarily wraps to zero). -/
theorem sub64_add64_pred (a d : Nat) (hd : 0 < d) (hov : a + d - 1 < U64) :
    sub64 (add64 a d) 1 = a + d - 1 := by
  unfold sub64 add64
  rw [U64_val] at *
  omega

/-- `(a + u - 1) / u` is the exact ceiling of `a / u`: it is the least
`q` with `a ≤ q * u`. -/
theorem ceil_div_bounds (a u : Nat) (hu : 0 < u) :
    a ≤ (a + u - 1) / u * u ∧ (a + u - 1) / u * u < a + u := by
  have h1 : (a + u - 1) / u * u ≤ a + u - 1 := Nat.div_mul_le_self _ _
  have h2 := Nat.div_add_mod (a + u - 1) u
  have h3 : (a + u - 1) % u < u := Nat.mod_lt _ hu
  have h4 : (a + u - 1) / u * u = u * ((a + u - 1) / u) := Nat.mul_comm _ _
  omega

theorem unit_size_pos (opts : Options) : 0 < unit_size opts := by
  unfold unit_size
  split <;> norm_num

/-- The shape of the row produced by `mount_entry_to_format_entry` on a
successful statvfs query whenever the zero-total skip does not fire. -/
theorem mount_entry_format_eq (me : MountEntry) (s : StatVFs) (opts : Options)
    (is_vfs : Bool) (hrow : (s.blocks != 0 || is_vfs) = true) :
    mount_entry_to_format_entry me (.ok s) opts is_vfs =
      some (some
        { file_system := me.spec
          total := toString
            (sub64 (add64 (mul64 s.blocks s.frsize) (unit_size opts)) 1
              / unit_size opts)
          used := toString
            (sub64 (add64 (mul64 (used_blocks s) s.frsize) (unit_size opts)) 1
              / unit_size opts)
          available := toString (mul64 s.bavail s.frsize / unit_size opts)
          capacity :=
            if total_blocks2 s != 0 then
              toString (sub64 (add64 (mul64 (used_blocks s) 100) (total_blocks2 s)) 1
                / total_blocks2 s) ++ "%"
            else "0%"
          mount_point := me.file }) := by
  simp only [mount_entry_to_format_entry]
  rw [if_pos hrow]
  rfl

/-! ## Claims C4-C7 and C10: the usage calculator -/

/-- Shared description of the capacity field: the exact ceiling formula
when the denominator is nonzero, the literal `0%` otherwise. -/
theorem capacity_spec_aux (me : MountEntry) (s : StatVFs) (opts : Options)
    (is_vfs : Bool) (hrow : (s.blocks != 0 || is_vfs) = true)
    (hov : used_blocks s * 100 + total_blocks2 s - 1 < U64) :
    ∃ fe, mount_entry_to_format_entry me (.ok s) opts is_vfs = some (some fe) ∧
      fe.capacity =
        (if total_blocks2 s = 0 then "0%"
         else
           toString ((used_blocks s * 100 + total_blocks2 s - 1) / total_blocks2 s)
             ++ "%") ∧
      (total_blocks2 s ≠ 0 →
        used_blocks s * 100 ≤
          (used_blocks s * 100 + total_blocks2 s - 1) / total_blocks2 s *
            total_blocks2 s ∧
          (used_blocks s * 100 + total_blocks2 s - 1) / total_blocks2 s *
            total_blocks2 s <
            used_blocks s * 100 + total_blocks2 s) := by
  refine ⟨_, mount_entry_format_eq me s opts is_vfs hrow, ?_, ?_⟩
  · by_cases hd : total_blocks2 s = 0
    · rw [if_pos hd]
      have hb : (total_blocks2 s != 0) = false := by simp [hd]
      rw [hb]
      rfl
    · rw [if_neg hd]
      have hb : (total_blocks2 s != 0) = true := by simp [hd]
      rw [hb]
      have hdp : 0 < total_blocks2 s := Nat.pos_of_ne_zero hd
      have hmul : mul64 (used_blocks s) 100 = used_blocks s * 100 :=
        mul64_eq _ _ (by omega)
      rw [hmul, sub64_add64_pred _ _ hdp hov]
      rfl
  · intro hd
    exact ceil_div_bounds _ _ (Nat.pos_of_ne_zero hd)

/-- Claim C4: the capacity percentage is the exact integer ceiling
`(used_blocks * 100 + total_blocks2 - 1) / total_blocks2` whenever the
numerator fits in `u64`, and is the literal string `0%` (no division
performed, the source's `else` branch) when `total_blocks2 = 0`.  The
third conjunct certifies that the quotient is the exact ceiling of
`used_blocks * 100 / total_blocks2`. -/
theorem capacity_ceil_formula (me : MountEntry) (s : StatVFs) (opts : Options)
    (is_vfs : Bool) (hrow : (s.blocks != 0 || is_vfs) = true)
    (hov : used_blocks s * 100 + total_blocks2 s - 1 < U64) :
    ∃ fe, mount_entry_to_format_entry me (.ok s) opts is_vfs = some (some fe) ∧
      fe.capacity =
        (if total_blocks2 s = 0 then "0%"
         else
           toString ((used_blocks s * 100 + total_blocks2 s - 1) / total_blocks2 s)
             ++ "%") ∧
      (total_blocks2 s ≠ 0 →
        used_blocks s * 100 ≤
          (used_blocks s * 100 + total_blocks2 s - 1) / total_blocks2 s *
            total_blocks2 s ∧
          (used_blocks s * 100 + total_blocks2 s - 1) / total_blocks2 s *
            total_blocks2 s <
            used_blocks s * 100 + total_blocks2 s) :=
  capacity_spec_aux me s opts is_vfs hrow hov

/-- Witness for C4: a concrete filesystem whose capacity is
`ceil(600 * 100 / 1200) = 50`, rendered `50%`, and a zero-denominator
filesystem rendered `0%`. -/
theorem capacity_ceil_formula_inst :
    (((10 : Nat) != 0 || false) = true ∧
      used_blocks ⟨0, 2048, 10, 4, 6, 0, 0, 0, 0, 0, 0⟩ * 100 +
        total_blocks2 ⟨0, 2048, 10, 4, 6, 0, 0, 0, 0, 0, 0⟩ - 1 < U64) ∧
    (∃ fe, mount_entry_to_format_entry ⟨"devA", "/mA"⟩
        (.ok ⟨0, 2048, 10, 4, 6, 0, 0, 0, 0, 0, 0⟩) ⟨false⟩ false =
        some (some fe) ∧ fe.capacity = "50%") ∧
    (∃ fe, mount_entry_to_format_entry ⟨"devB", "/mB"⟩
        (.ok ⟨0, 2048, 0, 0, 0, 0, 0, 0, 0, 0, 0⟩) ⟨false⟩ true =
        some (some fe) ∧ fe.capacity = "0%") := by
  refine ⟨by decide, ?_, ?_⟩
  · obtain ⟨fe, hfe, hcap, _⟩ :=
      capacity_ceil_formula ⟨"devA", "/mA"⟩ ⟨0, 2048, 10, 4, 6, 0, 0, 0, 0, 0, 0⟩
        ⟨false⟩ false (by decide) (by decide)
    exact ⟨fe, hfe, by rw [hcap]; decide⟩
  · obtain ⟨fe, hfe, hcap, _⟩ :=
      capacity_ceil_formula ⟨"devB", "/mB"⟩ ⟨0, 2048, 0, 0, 0, 0, 0, 0, 0, 0, 0⟩
        ⟨false⟩ true (by decide) (by decide)
    exact ⟨fe, hfe, by rw [hcap]; decide⟩

/-- Claim C5: with fragment size `F`, total `T`, available `A` and unit
`U`, the displayed values are `total = ceil(T * F / U)`,
`used = ceil(used_blocks * F / U)` and `available = floor(A * F / U)`
(the plain truncating division), whenever the products fit in `u64`.
The final conjuncts certify the two ceilings exactly. -/
theorem display_rounding (me : MountEntry) (s : StatVFs) (opts : Options)
    (is_vfs : Bool) (hrow : (s.blocks != 0 || is_vfs) = true)
    (hT : s.blocks * s.frsize + unit_size opts - 1 < U64)
    (hU : used_blocks s * s.frsize + unit_size opts - 1 < U64)
    (hA : s.bavail * s.frsize < U64) :
    ∃ fe, mount_entry_to_format_entry me (.ok s) opts is_vfs = some (some fe) ∧
      fe.total =
        toString ((s.blocks * s.frsize + unit_size opts - 1) / unit_size opts) ∧
      fe.used =
        toString ((used_blocks s * s.frsize + unit_size opts - 1) / unit_size opts) ∧
      fe.available = toString (s.bavail * s.frsize / unit_size opts) ∧
      (s.blocks * s.frsize ≤
          (s.blocks * s.frsize + unit_size opts - 1) / unit_size opts *
            unit_size opts ∧
        (s.blocks * s.frsize + unit_size opts - 1) / unit_size opts *
            unit_size opts <
          s.blocks * s.frsize + unit_size opts) ∧
      (used_blocks s * s.frsize ≤
          (used_blocks s * s.frsize + unit_size opts - 1) / unit_size opts *
            unit_size opts ∧
        (used_blocks s * s.frsize + unit_size opts - 1) / unit_size opts *
            unit_size opts <
          used_blocks s * s.frsize + unit_size opts) := by
  have hup := unit_size_pos opts
  refine ⟨_, mount_entry_format_eq me s opts is_vfs hrow, ?_, ?_, ?_, ?_, ?_⟩
  · have hmul : mul64 s.blocks s.frsize = s.blocks * s.frsize :=
      mul64_eq _ _ (by omega)
    rw [hmul, sub64_add64_pred _ _ hup hT]
  · have hmul : mul64 (used_blocks s) s.frsize = used_blocks s * s.frsize :=
      mul64_eq _ _ (by omega)
    rw [hmul, sub64_add64_pred _ _ hup hU]
  · rw [mul64_eq _ _ hA]
  · exact ceil_div_bounds _ _ hup
  · exact ceil_div_bounds _ _ hup

/-- Witness for C5, the spec's worked example: `fragment_size = 4096`,
`total = 1000`, `free = 200`, `available = 150`, unit 512 gives
`used_blocks = 800`, `total = 8000`, `used = 6400`, `available = 1200`
and (via the C4 formula at the same input) `capacity = 85%`. -/
theorem display_rounding_inst :
    (used_blocks ⟨0, 4096, 1000, 200, 150, 0, 0, 0, 0, 0, 0⟩ = 800 ∧
      unit_size ⟨false⟩ = 512) ∧
    ∃ fe, mount_entry_to_format_entry ⟨"dev", "/mnt"⟩
        (.ok ⟨0, 4096, 1000, 200, 150, 0, 0, 0, 0, 0, 0⟩) ⟨false⟩ true =
        some (some fe) ∧
      fe.total = "8000" ∧ fe.used = "6400" ∧ fe.available = "1200" ∧
      fe.capacity = "85%" := by
  refine ⟨by decide, ?_⟩
  obtain ⟨fe, hfe, ht, hu, ha, _, _⟩ :=
    display_rounding ⟨"dev", "/mnt"⟩ ⟨0, 4096, 1000, 200, 150, 0, 0, 0, 0, 0, 0⟩
      ⟨false⟩ true (by decide) (by decide) (by decide) (by decide)
  refine ⟨fe, hfe, by rw [ht]; decide, by rw [hu]; decide, by rw [ha]; decide, ?_⟩
  have h2 : mount_entry_to_format_entry ⟨"dev", "/mnt"⟩
      (.ok ⟨0, 4096, 1000, 200, 150, 0, 0, 0, 0, 0, 0⟩) ⟨false⟩ true =
      some (some ⟨"dev", "8000", "6400", "1200", "85%", "/mnt"⟩) := by decide
  rw [h2] at hfe
  injection hfe with h3
  injection h3 with h4
  rw [← h4]

/-- Claim C6: the usage computation is total — it needs no relation at
all among the statistics fields.  Whenever the zero-total skip does not
fire it produces a row for *every* `StatVFs` value, in particular when
`free_blocks > total_blocks` (the `u64` subtraction wraps) or
`available_blocks > free_blocks`; no invariant is assumed. -/
theorem usage_defined_without_invariant (me : MountEntry) (s : StatVFs)
    (opts : Options) (is_vfs : Bool)
    (hrow : (s.blocks != 0 || is_vfs) = true) :
    ∃ fe, mount_entry_to_format_entry me (.ok s) opts is_vfs = some (some fe) :=
  ⟨_, mount_entry_format_eq me s opts is_vfs hrow⟩

/-- Witness for C6: a statistics record violating the typical invariant
twice (`bfree = 5 > blocks = 3`, `bavail = 9 > bfree`) still yields a
row. -/
theorem usage_defined_without_invariant_inst :
    (StatVFs.blocks ⟨0, 4096, 3, 5, 9, 0, 0, 0, 0, 0, 0⟩ <
        StatVFs.bfree ⟨0, 4096, 3, 5, 9, 0, 0, 0, 0, 0, 0⟩ ∧
      StatVFs.bfree ⟨0, 4096, 3, 5, 9, 0, 0, 0, 0, 0, 0⟩ <
        StatVFs.bavail ⟨0, 4096, 3, 5, 9, 0, 0, 0, 0, 0, 0⟩ ∧
      (((3 : Nat) != 0) || false) = true) ∧
    ∃ fe, mount_entry_to_format_entry ⟨"dev", "/m"⟩
        (.ok ⟨0, 4096, 3, 5, 9, 0, 0, 0, 0, 0, 0⟩) ⟨false⟩ false =
      some (some fe) :=
  ⟨by decide,
    usage_defined_without_invariant ⟨"dev", "/m"⟩ ⟨0, 4096, 3, 5, 9, 0, 0, 0, 0, 0, 0⟩
      ⟨false⟩ false (by decide)⟩

/-- Claim C7: a filesystem reporting zero total blocks is skipped
(`Some(None)`, hence no row and success status) when it came from the
enumeration loop (`is_vfs = false`), but in targeted mode
(`is_vfs = true`) it still produces a row whose total renders as `0`. -/
theorem zero_total_skip_vs_row (me : MountEntry) (s : StatVFs) (opts : Options)
    (w : World) (hz : s.blocks = 0) (hw : w.statvfs me.file = .ok s) :
    mount_entry_to_format_entry me (.ok s) opts false = some none ∧
    process_mount w opts me = (none, 0) ∧
    ∃ fe, mount_entry_to_format_entry me (.ok s) opts true = some (some fe) ∧
      fe.total = "0" := by
  have hskip : mount_entry_to_format_entry me (.ok s) opts false = some none := by
    simp only [mount_entry_to_format_entry]
    rw [if_neg (by simp [hz])]
  refine ⟨hskip, ?_, ?_⟩
  · unfold process_mount
    rw [hw, hskip]
  · refine ⟨_, mount_entry_format_eq me s opts true (by simp [hz]), ?_⟩
    show toString
        (sub64 (add64 (mul64 s.blocks s.frsize) (unit_size opts)) 1
          / unit_size opts) = "0"
    rw [hz, mul64_zero]
    obtain ⟨kf⟩ := opts
    cases kf <;> decide

/-- Witness for C7: a concrete zero-total filesystem with nonzero free
and available counts is skipped in enumeration mode and reported with
total `0` in targeted mode. -/
theorem zero_total_skip_vs_row_inst :
    mount_entry_to_format_entry ⟨"proc", "/proc"⟩
        (.ok ⟨0, 4096, 0, 7, 7, 0, 0, 0, 0, 0, 0⟩) ⟨true⟩ false = some none ∧
    process_mount
        ⟨fun _ => .ok (), .ok [],
          fun _ => .ok ⟨0, 4096, 0, 7, 7, 0, 0, 0, 0, 0, 0⟩⟩ ⟨true⟩
        ⟨"proc", "/proc"⟩ = (none, 0) ∧
    ∃ fe, mount_entry_to_format_entry ⟨"proc", "/proc"⟩
        (.ok ⟨0, 4096, 0, 7, 7, 0, 0, 0, 0, 0, 0⟩) ⟨true⟩ true =
      some (some fe) ∧ fe.total = "0" :=
  zero_total_skip_vs_row ⟨"proc", "/proc"⟩ ⟨0, 4096, 0, 7, 7, 0, 0, 0, 0, 0, 0⟩
    ⟨true⟩ ⟨fun _ => .ok (), .ok [], fun _ => .ok ⟨0, 4096, 0, 7, 7, 0, 0, 0, 0, 0, 0⟩⟩
    rfl rfl

/-- Counterexample for C10 as stated: a statistics record with
`bfree = 0 ≤ blocks = 100` (no underflow) but a huge `bavail` makes the
`u64` denominator `used + available` wrap around to `2`, and the
rendered capacity is `5000%`, far above 100. -/
theorem capacity_overflow_cex :
    StatVFs.bfree ⟨0, 512, 100, 0, 18446744073709551518, 0, 0, 0, 0, 0, 0⟩ ≤
      StatVFs.blocks ⟨0, 512, 100, 0, 18446744073709551518, 0, 0, 0, 0, 0, 0⟩ ∧
    mount_entry_to_format_entry ⟨"dev", "/m"⟩
        (.ok ⟨0, 512, 100, 0, 18446744073709551518, 0, 0, 0, 0, 0, 0⟩)
        ⟨false⟩ true =
      some (some ⟨"dev", "100", "100", "36028797018963870", "5000%", "/m"⟩) ∧
    (100 : Nat) < 5000 := by decide

/-- Claim C10 (amended): whenever `free_blocks ≤ total_blocks` *and* the
percentage arithmetic stays inside `u64`
(`101 * used_blocks + available_blocks < 2 ^ 64`, which covers both the
numerator and the denominator), the computed capacity percentage is at
most 100. -/
theorem capacity_le_100 (me : MountEntry) (s : StatVFs) (opts : Options)
    (is_vfs : Bool) (hrow : (s.blocks != 0 || is_vfs) = true)
    (hfree : s.bfree ≤ s.blocks) (hblocks : s.blocks < U64)
    (hov : 101 * (s.blocks - s.bfree) + s.bavail < U64) :
    ∃ fe c, mount_entry_to_format_entry me (.ok s) opts is_vfs = some (some fe) ∧
      fe.capacity = toString c ++ "%" ∧ c ≤ 100 := by
  have hused : used_blocks s = s.blocks - s.bfree :=
    sub64_eq _ _ hblocks (Nat.lt_of_le_of_lt hfree hblocks) hfree
  have hd : total_blocks2 s = (s.blocks - s.bfree) + s.bavail := by
    unfold total_blocks2
    rw [hused]
    exact add64_eq _ _ (by omega)
  obtain ⟨fe, hfe, hcap, hceil⟩ :=
    capacity_spec_aux me s opts is_vfs hrow (by rw [hused, hd]; omega)
  by_cases hz : total_blocks2 s = 0
  · refine ⟨fe, 0, hfe, ?_, by omega⟩
    rw [hcap, if_pos hz]
    rfl
  · refine ⟨fe,
      (used_blocks s * 100 + total_blocks2 s - 1) / total_blocks2 s, hfe, ?_, ?_⟩
    · rw [hcap, if_neg hz]
    · obtain ⟨hle, hlt⟩ := hceil hz
      have hnum : used_blocks s * 100 ≤ 100 * total_blocks2 s := by
        rw [hused, hd]
        omega
      have h101 : (used_blocks s * 100 + total_blocks2 s - 1) / total_blocks2 s *
          total_blocks2 s < 101 * total_blocks2 s := by omega
      have := Nat.lt_of_mul_lt_mul_right h101
      omega

/-- Witness for C10 (amended): `blocks = 10`, `bfree = 2`, `bavail = 0`
satisfies the hypotheses, and the capacity `ceil(800 / 8) = 100` is at
most 100. -/
theorem capacity_le_100_inst :
    ((StatVFs.bfree ⟨0, 1, 10, 2, 0, 0, 0, 0, 0, 0, 0⟩ ≤
        StatVFs.blocks ⟨0, 1, 10, 2, 0, 0, 0, 0, 0, 0, 0⟩) ∧
      101 * ((10 : Nat) - 2) + 0 < U64) ∧
    ∃ fe c, mount_entry_to_format_entry ⟨"dev", "/w"⟩
        (.ok ⟨0, 1, 10, 2, 0, 0, 0, 0, 0, 0, 0⟩) ⟨true⟩ true =
        some (some fe) ∧ fe.capacity = toString c ++ "%" ∧ c ≤ 100 :=
  ⟨⟨by decide, by rw [U64_val]; norm_num⟩,
    capacity_le_100 ⟨"dev", "/w"⟩ ⟨0, 1, 10, 2, 0, 0, 0, 0, 0, 0, 0⟩ ⟨true⟩ true
      (by decide) (by decide) (by rw [U64_val]; norm_num)
      (by rw [U64_val]; norm_num)⟩

/-! ## Lemmas about the orchestration in `main` -/

/-- One targeted-mode loop iteration appends exactly the item's row (if
any) and merges the item's status flag. -/
theorem main_step_path_eq (w : World) (opts : Options) :
    ∀ (acc : List FormatEntry × Nat) (path : String),
      main_step_path w opts acc path =
        (acc.1 ++ ((process_path w opts path).1).toList,
          if (process_path w opts path).2 = 0 then acc.2 else 1) := by
  intro acc path
  unfold main_step_path process_path
  cases hm : w.meta path with
  | ok u =>
    cases hf : find_mount_res w path with
    | ok mo =>
      cases mo with
      | some me =>
        cases hr : mount_entry_to_format_entry me (w.statvfs me.file) opts true with
        | none => simp [hr]
        | some o => cases o with
          | none => simp [hr]
          | some fe => simp [hr]
      | none => simp
    | error e => simp
  | error e => simp

/-- One enumeration-mode loop iteration appends exactly the entry's row
(if any) and merges the entry's status flag. -/
theorem main_step_mount_eq (w : World) (opts : Options) :
    ∀ (acc : List FormatEntry × Nat) (mount_entry : MountEntry),
      main_step_mount w opts acc mount_entry =
        (acc.1 ++ ((process_mount w opts mount_entry).1).toList,
          if (process_mount w opts mount_entry).2 = 0 then acc.2 else 1) := by
  intro acc me
  unfold main_step_mount process_mount
  cases hr : mount_entry_to_format_entry me (w.statvfs me.file) opts false with
  | none => simp [hr]
  | some o => cases o with
    | none => simp [hr]
    | some fe => simp [hr]

/-- A loop whose body appends the per-item row and merges the per-item
status collects the rows of all items (independently of other items'
failures) and reports failure exactly when some item fails. -/
theorem foldl_rows_status {α : Type}
    (step : List FormatEntry × Nat → α → List FormatEntry × Nat)
    (item : α → Option FormatEntry × Nat)
    (hstep : ∀ acc x, step acc x =
      (acc.1 ++ ((item x).1).toList, if (item x).2 = 0 then acc.2 else 1)) :
    ∀ (l : List α) (acc : List FormatEntry × Nat),
      l.foldl step acc =
        (acc.1 ++ l.filterMap (fun x => (item x).1),
          if ∀ x ∈ l, (item x).2 = 0 then acc.2 else 1) := by
  intro l
  induction l with
  | nil => intro acc; simp
  | cons a t ih =>
    intro acc
    rw [List.foldl_cons, hstep, ih]
    by_cases ha : (item a).2 = 0 <;> by_cases ht : ∀ x ∈ t, (item x).2 = 0 <;>
      cases hia : (item a).1 <;>
        simp [List.filterMap_cons, hia, ha, ht, List.forall_mem_cons,
          List.append_assoc]

/-- `runMain` in targeted mode: the header plus each path's row, with
exit status 0 exactly when every path succeeded. -/
theorem runMain_targeted (w : World) (opts : Options) (paths : List String)
    (hne : paths ≠ []) :
    runMain w opts paths =
      (header_format_entry opts ::
          paths.filterMap (fun p => (process_path w opts p).1),
        if ∀ p ∈ paths, (process_path w opts p).2 = 0 then 0 else 1) := by
  have hb : paths.isEmpty = false := by
    cases paths with
    | nil => exact absurd rfl hne
    | cons a t => rfl
  have h0 : runMain w opts paths =
      List.foldl (main_step_path w opts) ([header_format_entry opts], 0) paths := by
    unfold runMain
    rw [hb]
    rfl
  rw [h0]
  rw [foldl_rows_status _ (process_path w opts) (main_step_path_eq w opts) paths]
  rfl

/-- `runMain` in enumeration mode with a readable mount table. -/
theorem runMain_enumerated_ok (w : World) (opts : Options)
    (entries : List MountEntry) (hw : w.mounts = .ok entries) :
    runMain w opts [] =
      (header_format_entry opts ::
          entries.filterMap (fun e => (process_mount w opts e).1),
        if ∀ e ∈ entries, (process_mount w opts e).2 = 0 then 0 else 1) := by
  have h0 : runMain w opts [] =
      (match get_mounts w with
        | .ok mount_entries =>
          mount_entries.foldl (main_step_mount w opts)
            ([header_format_entry opts], 0)
        | .error _ => ([header_format_entry opts], 1)) := rfl
  rw [h0]
  unfold get_mounts
  rw [hw]
  show List.foldl (main_step_mount w opts) ([header_format_entry opts], 0) entries = _
  rw [foldl_rows_status _ (process_mount w opts) (main_step_mount_eq w opts) entries]
  rfl

/-- `runMain` in enumeration mode with an unreadable mount table: just
the header and exit status 1. -/
theorem runMain_enumerated_err (w : World) (opts : Options) (err : String)
    (hw : w.mounts = .error err) :
    runMain w opts [] = ([header_format_entry opts], 1) := by
  have h0 : runMain w opts [] =
      (match get_mounts w with
        | .ok mount_entries =>
          mount_entries.foldl (main_step_mount w opts)
            ([header_format_entry opts], 0)
        | .error _ => ([header_format_entry opts], 1)) := rfl
  rw [h0]
  unfold get_mounts
  rw [hw]

/-- A string accumulation over rows never shrinks. -/
theorem foldl_line_len (ml : FormatMaxLengths) :
    ∀ (l : List FormatEntry) (out : String),
      out.length ≤ (l.foldl (fun o fe => o ++ format_line fe ml) out).length := by
  intro l
  induction l with
  | nil => intro out; exact Nat.le_refl _
  | cons a t ih =>
    intro out
    rw [List.foldl_cons]
    refine Nat.le_trans ?_ (ih (out ++ format_line a ml))
    rw [String.length_append]
    omega

/-- A printed line is nonempty: it ends with a newline. -/
theorem format_line_len_pos (fe : FormatEntry) (ml : FormatMaxLengths) :
    0 < (format_line fe ml).length := by
  unfold format_line
  rw [String.length_append]
  have : ("\n" : String).length = 1 := rfl
  omega

/-- The rendering of a nonempty row list is a nonempty string. -/
theorem print_format_entries_ne_empty (fes : List FormatEntry)
    (ml : FormatMaxLengths) (h : fes ≠ []) :
    print_format_entries fes ml ≠ "" := by
  cases fes with
  | nil => exact absurd rfl h
  | cons f t =>
    intro hc
    have h1 : 0 < (print_format_entries (f :: t) ml).length := by
      unfold print_format_entries
      rw [List.foldl_cons]
      refine Nat.lt_of_lt_of_le ?_ (foldl_line_len ml t ("" ++ format_line f ml))
      rw [String.length_append]
      have := format_line_len_pos f ml
      omega
    rw [hc] at h1
    exact absurd h1 (by decide)

/-! ## Claims C8 and C9: exit status and output suppression -/

/-- Claim C8: the exit status is 0 exactly when every requested item was
resolved and queried successfully, and a per-item failure neither stops
the loop nor suppresses the rows of other items: the collected rows are
the header followed by the rows of exactly the successful items, in
order, in both targeted and enumeration mode; an unreadable mount table
in enumeration mode yields only the header and status 1. -/
theorem exit_status_and_rows (w : World) (opts : Options) (paths : List String) :
    (paths ≠ [] →
      runMain w opts paths =
        (header_format_entry opts ::
            paths.filterMap (fun p => (process_path w opts p).1),
          if ∀ p ∈ paths, (process_path w opts p).2 = 0 then 0 else 1)) ∧
    (paths = [] →
      (∀ entries, w.mounts = .ok entries →
        runMain w opts paths =
          (header_format_entry opts ::
              entries.filterMap (fun e => (process_mount w opts e).1),
            if ∀ e ∈ entries, (process_mount w opts e).2 = 0 then 0 else 1)) ∧
      ∀ err, w.mounts = .error err →
        runMain w opts paths = ([header_format_entry opts], 1)) := by
  refine ⟨runMain_targeted w opts paths, fun hp => ⟨?_, ?_⟩⟩
  · intro entries hw
    subst hp
    exact runMain_enumerated_ok w opts entries hw
  · intro err hw
    subst hp
    exact runMain_enumerated_err w opts err hw

/-- Witness for C8: of two requested paths, `/bad` fails `fs::metadata`
and `/data` succeeds; the run still produces the row for `/data` (two
rows counting the header) and exits with status 1. -/
theorem exit_status_and_rows_inst :
    runMain
        ⟨fun p => if p = "/bad" then .error "denied" else .ok (),
          .ok [⟨"rootfs", "/"⟩],
          fun _ => .ok ⟨0, 4096, 1000, 200, 150, 0, 0, 0, 0, 0, 0⟩⟩
        ⟨false⟩ ["/bad", "/data"] =
      (header_format_entry ⟨false⟩ ::
          ["/bad", "/data"].filterMap (fun p =>
            (process_path
              ⟨fun p => if p = "/bad" then .error "denied" else .ok (),
                .ok [⟨"rootfs", "/"⟩],
                fun _ => .ok ⟨0, 4096, 1000, 200, 150, 0, 0, 0, 0, 0, 0⟩⟩
              ⟨false⟩ p).1),
        if ∀ p ∈ ["/bad", "/data"],
            (process_path
              ⟨fun p => if p = "/bad" then .error "denied" else .ok (),
                .ok [⟨"rootfs", "/"⟩],
                fun _ => .ok ⟨0, 4096, 1000, 200, 150, 0, 0, 0, 0, 0, 0⟩⟩
              ⟨false⟩ p).2 = 0 then 0 else 1) ∧
    (runMain
        ⟨fun p => if p = "/bad" then .error "denied" else .ok (),
          .ok [⟨"rootfs", "/"⟩],
          fun _ => .ok ⟨0, 4096, 1000, 200, 150, 0, 0, 0, 0, 0, 0⟩⟩
        ⟨false⟩ ["/bad", "/data"]).2 = 1 ∧
    (runMain
        ⟨fun p => if p = "/bad" then .error "denied" else .ok (),
          .ok [⟨"rootfs", "/"⟩],
          fun _ => .ok ⟨0, 4096, 1000, 200, 150, 0, 0, 0, 0, 0, 0⟩⟩
        ⟨false⟩ ["/bad", "/data"]).1.length = 2 :=
  ⟨(exit_status_and_rows _ _ _).1 (by decide), by decide, by decide⟩

/-- Claim C9: the collected rows are always the header followed by the
data rows; when there are zero data rows nothing at all is printed (not
even the header), and when at least one data row exists the printed text
is the rendered table including the header, and is nonempty. -/
theorem output_suppressed_iff_no_rows (w : World) (opts : Options)
    (paths : List String) :
    ∃ dataRows,
      (runMain w opts paths).1 = header_format_entry opts :: dataRows ∧
      (dataRows = [] → mainOutput w opts paths = "") ∧
      (dataRows ≠ [] →
        mainOutput w opts paths =
          print_format_entries ((runMain w opts paths).1)
            (calculate_format_max_lens ((runMain w opts paths).1)) ∧
        mainOutput w opts paths ≠ "") := by
  have hshape : ∃ dataRows,
      (runMain w opts paths).1 = header_format_entry opts :: dataRows := by
    by_cases hq : paths = []
    · subst hq
      cases hw : w.mounts with
      | ok entries =>
        exact ⟨_, by rw [runMain_enumerated_ok w opts entries hw]⟩
      | error err =>
        exact ⟨[], by rw [runMain_enumerated_err w opts err hw]⟩
    · exact ⟨_, by rw [runMain_targeted w opts paths hq]⟩
  obtain ⟨dataRows, hrows⟩ := hshape
  refine ⟨dataRows, hrows, ?_, ?_⟩
  · intro h0
    subst h0
    show (if (runMain w opts paths).1.length > 1 then
        print_format_entries ((runMain w opts paths).1)
          (calculate_format_max_lens ((runMain w opts paths).1))
      else "") = ""
    rw [hrows]
    rfl
  · intro hne
    have hlen : 1 < (runMain w opts paths).1.length := by
      rw [hrows]
      cases dataRows with
      | nil => exact absurd rfl hne
      | cons d ds => simp
    have hout : mainOutput w opts paths =
        print_format_entries ((runMain w opts paths).1)
          (calculate_format_max_lens ((runMain w opts paths).1)) := by
      show (if (runMain w opts paths).1.length > 1 then
          print_format_entries ((runMain w opts paths).1)
            (calculate_format_max_lens ((runMain w opts paths).1))
        else "") = _
      rw [if_pos hlen]
    refine ⟨hout, ?_⟩
    rw [hout]
    apply print_format_entries_ne_empty
    rw [hrows]
    exact List.cons_ne_nil _ _

/-- Witness for C9: a single requested path whose statvfs query fails
produces zero data rows, and the program prints nothing at all. -/
theorem output_suppressed_iff_no_rows_inst :
    mainOutput ⟨fun _ => .ok (), .ok [⟨"r", "/"⟩], fun _ => .error "eio"⟩
      ⟨false⟩ ["/a"] = "" := by
  obtain ⟨d, hd, h1, _⟩ :=
    output_suppressed_iff_no_rows
      ⟨fun _ => .ok (), .ok [⟨"r", "/"⟩], fun _ => .error "eio"⟩ ⟨false⟩ ["/a"]
  have hrows : (runMain ⟨fun _ => .ok (), .ok [⟨"r", "/"⟩], fun _ => .error "eio"⟩
      ⟨false⟩ ["/a"]).1 = [header_format_entry ⟨false⟩] := by decide
  rw [hrows] at hd
  injection hd with h2 h3
  exact h1 h3.symm

end Mntdf
